import Mathlib

/-!
Shallow embedding of the concurrent data-acquisition core of book2anki
(src/core/utils.py, src/scrape/oald.py, src/generate/anki.py), together
with theorems settling the specification claims against the code.

Conventions: Python floats standing for monotonic-clock readings become
rationals; Python ints become Lean integers where they may be negative;
fallible code returns Except or Option; asyncio interleaving is made
explicit as a step function over thread states, with one step per block of
code between await points (asyncio only switches tasks at await).
-/

namespace Book2Anki

/-! ## src/core/utils.py — AsyncRateLimiter -/

/-- State of an `AsyncRateLimiter`: the configured `max_calls` and
`period`, and the deque of recorded admission timestamps (front of the
deque = oldest). -/
structure AsyncRateLimiter where
  max_calls : Int
  period : Rat
  timestamps : List Rat
deriving DecidableEq

/-- The constructor `AsyncRateLimiter.__init__` (src/core/utils.py lines
8-11): it stores the configuration unchanged and starts with an empty
deque.  Its body contains no check and no raise, so the result is always
`some`; the `Option` codomain exists only so that the claim that a
configuration is rejected by the constructor can be stated as the result
being `none`. -/
def AsyncRateLimiter.init (max_calls : Int) (period : Rat) : Option AsyncRateLimiter :=
  some { max_calls := max_calls, period := period, timestamps := [] }

/-- Outcome of one iteration of the `while True` loop in
`AsyncRateLimiter.wait` (src/core/utils.py lines 13-23): the caller is
admitted (with the updated deque), or the loop sleeps and retries, or the
indexing `self.timestamps[0]` raises `IndexError` on an empty deque. -/
inductive WaitStep where
  | admitted (timestamps : List Rat)
  | sleepRetry (sleep_time : Rat)
  | indexError
deriving DecidableEq

/-- One iteration of `AsyncRateLimiter.wait`, entered at monotonic time
`now`: pop timestamps older than `period` from the front of the deque,
admit the caller (appending `now`) when strictly fewer than `max_calls`
timestamps remain, and otherwise compute the sleep time from
`self.timestamps[0]` — which raises `IndexError` when the pruned deque is
empty (reachable exactly when `max_calls` is not positive).  The loop body
runs atomically: no `await` separates the length check from the append, so
asyncio cannot interleave another task there. -/
def AsyncRateLimiter.waitIter (rl : AsyncRateLimiter) (now : Rat) : WaitStep :=
  let ts := rl.timestamps.dropWhile (fun t => t ≤ now - rl.period)
  if (ts.length : Int) < rl.max_calls then
    .admitted (ts ++ [now])
  else
    match ts with
    | [] => .indexError
    | t0 :: _ => .sleepRetry (rl.period - (now - t0))

/-- On a nondecreasing list, dropping the leading elements that are at
most `c` is the same as filtering out every element that is at most `c`. -/
theorem dropWhile_le_eq_filter (c : Rat) (l : List Rat) (hl : l.Sorted (· ≤ ·)) :
    l.dropWhile (fun t => t ≤ c) = l.filter (fun t => c < t) := by
  induction l with
  | nil => simp
  | cons a l ih =>
    rw [List.sorted_cons] at hl
    by_cases h : a ≤ c
    · rw [List.dropWhile_cons_of_pos (by simpa using h),
        List.filter_cons_of_neg (by simpa using not_lt.mpr h)]
      exact ih hl.2
    · push_neg at h
      rw [List.dropWhile_cons_of_neg (by simpa using not_le.mpr h),
        List.filter_cons_of_pos (by simpa using h)]
      congr 1
      exact (List.filter_eq_self.mpr (fun b hb => by
        simpa using lt_of_lt_of_le h (hl.1 b hb))).symm

/-- C1: whenever one iteration of `AsyncRateLimiter.wait` admits a caller
at monotonic time `now`, the recorded timestamps younger than `period`
(those `t` with `now - period < t`) number strictly fewer than
`max_calls`; the deque after admission is exactly those timestamps with
`now` appended (the new timestamp is recorded at admission time); and the
deque after admission holds at most `max_calls` timestamps younger than
`period`.  The sortedness hypothesis holds in the program because
timestamps are monotonic-clock readings appended in order. -/
theorem C1_rate_limit_admission (m : Int) (p : Rat) (st : List Rat) (now : Rat)
    (hsorted : st.Sorted (· ≤ ·)) (ts : List Rat)
    (hadm : AsyncRateLimiter.waitIter { max_calls := m, period := p, timestamps := st } now
      = .admitted ts) :
    ((st.filter (fun t => now - p < t)).length : Int) < m ∧
    ts = st.filter (fun t => now - p < t) ++ [now] ∧
    ((ts.filter (fun t => now - p < t)).length : Int) ≤ m := by
  unfold AsyncRateLimiter.waitIter at hadm
  simp only at hadm
  rw [dropWhile_le_eq_filter (now - p) st hsorted] at hadm
  split at hadm
  case isTrue hlt =>
    have hts : ts = st.filter (fun t => now - p < t) ++ [now] := by
      cases hadm
      rfl
    refine ⟨hlt, hts, ?_⟩
    have hlen : (ts.filter (fun t => now - p < t)).length ≤ ts.length :=
      List.length_filter_le _ _
    have : ts.length = (st.filter (fun t => now - p < t)).length + 1 := by
      rw [hts]; simp
    omega
  case isFalse => split at hadm <;> simp_all

/-- Witness for C1 at a concrete input: the empty deque, `max_calls = 1`,
`period = 1`, admission at time `0`. -/
theorem C1_rate_limit_admission_witness :
    ((((([] : List Rat)).filter (fun t => (0 : Rat) - 1 < t)).length : Int) < 1) ∧
    ([(0 : Rat)] = (([] : List Rat)).filter (fun t => (0 : Rat) - 1 < t) ++ [(0 : Rat)]) ∧
    ((([(0 : Rat)].filter (fun t => (0 : Rat) - 1 < t)).length : Int) ≤ 1) :=
  C1_rate_limit_admission 1 1 [] 0 (by simp) [0] (by decide)

/-- C9 counterexample: the constructor does not reject `max_calls = 0` —
`AsyncRateLimiter(0, 1.0)` is accepted and returns a limiter, rather than
raising a configuration error. -/
theorem C9_counterexample_init_accepts_zero :
    AsyncRateLimiter.init 0 1 = some { max_calls := 0, period := 1, timestamps := [] } :=
  rfl

/-- C9 amended: the constructor performs no validation, so a zero or
negative `max_calls` is accepted; the resulting limiter is not one whose
`wait()` blocks every caller forever — instead the first iteration of
`wait()` prunes the empty deque, fails the admission test, and raises
`IndexError` at `self.timestamps[0]`. -/
theorem C9_init_no_validation (max_calls : Int) (p : Rat) (now : Rat)
    (hm : max_calls ≤ 0) :
    AsyncRateLimiter.init max_calls p
      = some { max_calls := max_calls, period := p, timestamps := [] } ∧
    AsyncRateLimiter.waitIter { max_calls := max_calls, period := p, timestamps := [] } now
      = .indexError := by
  refine ⟨rfl, ?_⟩
  unfold AsyncRateLimiter.waitIter
  simp only [List.dropWhile_nil]
  rw [if_neg (by simpa using hm)]

/-- Witness for C9 amended at the concrete configuration
`AsyncRateLimiter(0, 1.0)` probed at time `0`. -/
theorem C9_init_no_validation_witness :
    AsyncRateLimiter.init 0 1 = some { max_calls := 0, period := 1, timestamps := [] } ∧
    AsyncRateLimiter.waitIter { max_calls := 0, period := 1, timestamps := [] } 0
      = .indexError :=
  C9_init_no_validation 0 1 0 (by decide)

/-! ## HTML document model (what the scraper observes through BeautifulSoup) -/

/-- A parsed HTML element as the scraper observes it through
BeautifulSoup: tag name, the multi-valued class attribute, the remaining
attributes, the strings directly contained in the element, and the child
elements.  The `nodeId` field models Python object identity (two
structurally equal tags in one document are still distinct nodes); only
`findNext` consults it. -/
inductive Html where
  | elem (nodeId : Nat) (tag : String) (classes : List String)
      (attrs : List (String × String)) (strs : List String)
      (children : List Html)

/-- Object identity of a node. -/
def Html.nodeIdOf : Html → Nat
  | .elem i _ _ _ _ _ => i

/-- Tag name of a node. -/
def Html.tagOf : Html → String
  | .elem _ t _ _ _ _ => t

/-- Class attribute values of a node. -/
def Html.classesOf : Html → List String
  | .elem _ _ c _ _ _ => c

/-- Attributes of a node other than class. -/
def Html.attrsOf : Html → List (String × String)
  | .elem _ _ _ a _ _ => a

/-- Child elements of a node. -/
def Html.childrenOf : Html → List Html
  | .elem _ _ _ _ _ ch => ch

mutual

/-- The `.text` of a BeautifulSoup node: the concatenation of all strings
in its subtree. -/
def Html.textOf : Html → String
  | .elem _ _ _ _ strs children => String.join strs ++ textOfList children

/-- Concatenated text of a list of nodes. -/
def textOfList : List Html → String
  | [] => ""
  | h :: t => Html.textOf h ++ textOfList t

end

mutual

/-- Document-order (preorder) listing of a subtree, the node itself
included first. -/
def Html.preorder : Html → List Html
  | .elem i t c a s children => .elem i t c a s children :: preorderList children

/-- Document-order listing of a forest. -/
def preorderList : List Html → List Html
  | [] => []
  | h :: t => Html.preorder h ++ preorderList t

end

/-- The descendants of a node in document order (BeautifulSoup searches
descendants only, never the node itself). -/
def Html.descendants (e : Html) : List Html :=
  preorderList e.childrenOf

/-- BeautifulSoup tag-and-class match: the node has the given tag name and
carries the given class among its classes. -/
def Html.matchesTC (e : Html) (tag cls : String) : Bool :=
  e.tagOf == tag && e.classesOf.contains cls

/-- BeautifulSoup `find(tag, class_=cls)`: the first matching descendant
in document order, if any. -/
def Html.find1 (e : Html) (tag cls : String) : Option Html :=
  e.descendants.find? (fun d => d.matchesTC tag cls)

/-- BeautifulSoup `find_all(tag, class_=cls)`: all matching descendants in
document order. -/
def Html.findAll (e : Html) (tag cls : String) : List Html :=
  e.descendants.filter (fun d => d.matchesTC tag cls)

/-- BeautifulSoup `find(tag)` with no class filter. -/
def Html.findTag (e : Html) (tag : String) : Option Html :=
  e.descendants.find? (fun d => d.tagOf == tag)

/-- BeautifulSoup `find(tag, class_=p)` with a predicate on the class
string: the node matches when some class of it satisfies the predicate. -/
def Html.findClassPred (e : Html) (tag : String) (p : String → Bool) : Option Html :=
  e.descendants.find? (fun d => d.tagOf == tag && d.classesOf.any p)

/-- BeautifulSoup `x.find_next(tag, class_=cls)` relative to the document
rooted at `root`: the first match among the elements after `x` in document
order, `x` located by node identity. -/
def Html.findNext (root x : Html) (tag cls : String) : Option Html :=
  ((root.preorder.dropWhile (fun e => e.nodeIdOf != x.nodeIdOf)).drop 1).find?
    (fun d => d.matchesTC tag cls)

/-- Attribute lookup `tag.get(key)` / `tag[key]`. -/
def Html.getAttr (e : Html) (key : String) : Option String :=
  (e.attrsOf.find? (fun kv => kv.1 == key)).map (fun kv => kv.2)

/-! ## Data produced by the scraper (src/scrape/oald.py) -/

/-- One pronunciation dict: IPA text and audio URL, both possibly
empty. -/
structure Pronunciation where
  ipa : String
  audio : String
deriving DecidableEq

/-- The pronunciations dict with its uk and us regions. -/
structure Pronunciations where
  uk : Pronunciation
  us : Pronunciation
deriving DecidableEq

/-- One sense dict: definition, example strings, CEFR level tag. -/
structure Sense where
  definition : String
  examples : List String
  level : String
deriving DecidableEq

/-- One idiom dict: idiom text, a single definition, example strings. -/
structure Idiom where
  idiom : String
  definition : String
  examples : List String
deriving DecidableEq

/-- One phrasal-verb dict: verb text and its own senses. -/
structure PhrasalVerb where
  phrasal_verb : String
  senses : List Sense
deriving DecidableEq

/-- The full entry dict built by `Word._process_entry` on success. -/
structure EntryData where
  headword : Option String
  part_of_speech : Option String
  pronunciations : Pronunciations
  meanings : List Sense
  idioms : List Idiom
  phrasal_verbs : List PhrasalVerb
deriving DecidableEq

/-- Result of `Word._process_entry`: the full dict, or the empty dict
returned by its catch-all `except` clause. -/
inductive EntryResult where
  | empty
  | entry (e : EntryData)
deriving DecidableEq

/-! ## Class-name constants of `Word` (src/scrape/oald.py lines 22-34) -/

def HEADWORD_CLASS : String := "headword"
def POS_CLASS : String := "pos"
def PHONS_BR_CLASS : String := "phons_br"
def PHONS_NA_CLASS : String := "phons_n_am"
def PHON_CLASS : String := "phon"
def SOUND_CLASS : String := "sound"
def SENSE_CLASS : String := "sense"
def DEF_CLASS : String := "def"
def EXAMPLE_CLASS : String := "x"
def IDIOMS_CLASS : String := "idioms"
def IDM_CLASS : String := "idm"
def PHRASAL_VERBS_CLASS : String := "phrasal_verb_links"

/-! ## Python string operations used by the parser, modelled over
character lists so that concrete pages evaluate. -/

/-- Python default whitespace, as tested by `str.strip()`. -/
def isPySpace (c : Char) : Bool :=
  c == ' ' || c == '\t' || c == '\n' || c == '\r' || c == '\x0b' || c == '\x0c'

/-- Python `str.strip()`: leading and trailing whitespace removed. -/
def pyStrip (s : String) : String :=
  String.mk (((s.data.dropWhile isPySpace).reverse.dropWhile isPySpace).reverse)

/-- Splitting a character list at every occurrence of a separator, empty
pieces kept — the behavior of Python `str.split(sep)`. -/
def splitOnChar (c : Char) : List Char → List (List Char)
  | [] => [[]]
  | x :: xs =>
    match splitOnChar c xs with
    | [] => [[]]
    | y :: ys => if x == c then [] :: y :: ys else (x :: y) :: ys

/-- Python `str.split(sep)` for a one-character separator. -/
def pySplit (sep : Char) (s : String) : List String :=
  (splitOnChar sep s.data).map String.mk

/-- Python `str.upper()` over ASCII. -/
def pyUpper (s : String) : String := String.mk (s.data.map Char.toUpper)

/-- Python `str.startswith(p)`. -/
def pyStartsWith (p s : String) : Bool := p.data.isPrefixOf s.data

/-! ## Parsing methods of `Word` (src/scrape/oald.py lines 139-232).
Leading underscores of the Python names are dropped; `soup` arguments are
explicit.  A method that can raise (through an attribute access on `None`)
returns `Except Unit`; methods whose accesses are all guarded return plain
values. -/

/-- `Word.get_headword`: text of the `h1.headword` node, or `None`. -/
def get_headword (soup : Html) : Option String :=
  (soup.find1 "h1" HEADWORD_CLASS).map (fun h => pyStrip h.textOf)

/-- `Word.get_part_of_speech`: text of the `span.pos` node, or `None`. -/
def get_part_of_speech (soup : Html) : Option String :=
  (soup.find1 "span" POS_CLASS).map (fun p => pyStrip p.textOf)

/-- `Word.get_pronunciation` for one region class: absent structure
degrades to empty strings field by field. -/
def get_pronunciation (soup : Html) (region_class : String) : Pronunciation :=
  match soup.find1 "div" region_class with
  | none => { ipa := "", audio := "" }
  | some pron =>
    { ipa :=
        match pron.find1 "span" PHON_CLASS with
        | some ipa => pyStrip ipa.textOf
        | none => ""
      audio :=
        match pron.find1 "div" SOUND_CLASS with
        | some audio => (audio.getAttr "data-src-mp3").getD ""
        | none => "" }

/-- `Word.get_pronunciations`: both regions. -/
def get_pronunciations (soup : Html) : Pronunciations :=
  { uk := get_pronunciation soup PHONS_BR_CLASS
    us := get_pronunciation soup PHONS_NA_CLASS }

/-- `Word._extract_cefr_level`: the last class of the first
`span.ox3ksym_*` inside `div.symbols`, uppercased after the last
underscore; empty when the structure is absent.  The matched span has a
nonempty class list, so the Python indexing `[-1]` cannot raise there. -/
def extract_cefr_level (sense_element : Html) : String :=
  match sense_element.find1 "div" "symbols" with
  | none => ""
  | some symbols_div =>
    match symbols_div.findClassPred "span"
        (fun x => x != "" && pyStartsWith "ox3ksym_" x) with
    | none => ""
    | some level_span =>
      pyUpper ((pySplit '_' ((level_span.classesOf).getLastD "")).getLastD "")

/-- `Word._parse_sense`: every access is guarded, so a missing definition
degrades to an empty string and missing examples to an empty list. -/
def parse_sense (sense : Html) : Sense :=
  { definition :=
      match sense.find1 "span" DEF_CLASS with
      | some d => pyStrip d.textOf
      | none => ""
    examples := (sense.findAll "span" EXAMPLE_CLASS).map (fun ex => pyStrip ex.textOf)
    level := extract_cefr_level sense }

/-- `Word.get_meanings`: senses under the first `ol`, or an empty list
when the container is absent. -/
def get_meanings (soup : Html) : List Sense :=
  match soup.findTag "ol" with
  | none => []
  | some senses_container =>
    (senses_container.findAll "li" SENSE_CLASS).map parse_sense

/-- `Word._parse_idiom` (src/scrape/oald.py lines 210-218): raises
`AttributeError` when the idiom has no following `ol.sense_single`
(`definition_section.find` on `None`) or when that section has no
`span.def` (`def_text.text` on `None`); the error cases are `.error ()`.
The example extraction is guarded by `if definition_section`, but that
guard is reached only after the unguarded uses. -/
def parse_idiom (root : Html) (idiom : Html) : Except Unit Idiom :=
  let idiom_text := pyStrip idiom.textOf
  match Html.findNext root idiom "ol" "sense_single" with
  | none => .error ()
  | some definition_section =>
    match definition_section.find1 "span" DEF_CLASS with
    | none => .error ()
    | some def_text =>
      .ok { idiom := idiom_text
            definition := pyStrip def_text.textOf
            examples := (definition_section.findAll "span" EXAMPLE_CLASS).map
              (fun ex => pyStrip ex.textOf) }

/-- Sequencing of fallible computations over a list, stopping at the
first raise — the effect of a Python loop or comprehension whose body may
raise, and of `asyncio.gather` re-raising the exception of a failed
task. -/
def mapME {ε α β : Type} (f : α → Except ε β) : List α → Except ε (List β)
  | [] => .ok []
  | x :: xs =>
    match f x with
    | .error e => .error e
    | .ok y =>
      match mapME f xs with
      | .error e => .error e
      | .ok ys => .ok (y :: ys)

/-- `Word.get_idioms`: an absent `div.idioms` degrades to an empty list;
otherwise each `span.idm` is parsed, and a raise from any single
`_parse_idiom` propagates. -/
def get_idioms (root : Html) : Except Unit (List Idiom) :=
  match root.find1 "div" IDIOMS_CLASS with
  | none => .ok []
  | some idioms_section =>
    mapME (parse_idiom root) (idioms_section.findAll "span" IDM_CLASS)

/-- `Word._parse_pv_sense`: same guarded structure as `_parse_sense`. -/
def parse_pv_sense (sense : Html) : Sense :=
  { definition :=
      match sense.find1 "span" DEF_CLASS with
      | some d => pyStrip d.textOf
      | none => ""
    examples := (sense.findAll "span" EXAMPLE_CLASS).map (fun ex => pyStrip ex.textOf)
    level := extract_cefr_level sense }

/-- `Word._parse_pv_page`: all `li.sense` nodes of the fetched page. -/
def parse_pv_page (soup : Html) : List Sense :=
  (soup.findAll "li" SENSE_CLASS).map parse_pv_sense

/-- Insertion into a Python dict: an existing key keeps its position and
its value is replaced; a new key is appended. -/
def dictSet (d : List (String × String)) (k v : String) : List (String × String) :=
  if d.any (fun kv => kv.1 == k) then
    d.map (fun kv => if kv.1 == k then (k, v) else kv)
  else
    d ++ [(k, v)]

/-- The `pv_links` dict built in `Word.get_phrasal_verbs` (src/scrape/
oald.py lines 110-121): for each `li.li` under `aside.phrasal_verb_links`,
the `span.xh` text maps to the `href` of the `a.Ref` link; entries with a
missing verb span, a missing `href`, or an empty `href` (falsy in the
`if verb and href` test) are skipped. -/
def pv_links (soup : Html) : List (String × String) :=
  match soup.find1 "aside" PHRASAL_VERBS_CLASS with
  | none => []
  | some aside =>
    (aside.findAll "li" "li").foldl (fun d li =>
      match li.find1 "a" "Ref" with
      | none => d
      | some a_tag =>
        match a_tag.find1 "span" "xh", a_tag.getAttr "href" with
        | some verb, some href =>
          if href != "" then dictSet d (pyStrip verb.textOf) href else d
        | _, _ => d) []

/-- `Word._fetch_pv_data`: the nested fetch of one phrasal-verb page.
`pvNet url = some page` models a 2xx response whose body parses to
`page`; `pvNet url = none` models any exception (network failure, non-2xx
through `raise_for_status`, parse failure) — the method catches every
exception and returns `(verb, None)`. -/
def fetch_pv_data (pvNet : String → Option Html) (verb url : String) :
    String × Option (List Sense) :=
  match pvNet url with
  | some soup => (verb, some (parse_pv_page soup))
  | none => (verb, none)

/-- `Word.get_phrasal_verbs` (src/scrape/oald.py lines 108-126): fetch
every discovered link and keep a result only when its data is truthy — a
`None` (failed fetch) and an empty sense list are both dropped by the
final `if data` filter. -/
def get_phrasal_verbs (soup : Html) (pvNet : String → Option Html) : List PhrasalVerb :=
  let results := (pv_links soup).map (fun kv => fetch_pv_data pvNet kv.1 kv.2)
  results.filterMap (fun vd =>
    match vd.2 with
    | some (s :: rest) => some { phrasal_verb := vd.1, senses := s :: rest }
    | _ => none)

/-- `Word._is_valid_entry` (src/scrape/oald.py lines 152-157): `None` is
invalid; a page is valid exactly when it has an `h1.headword` and a
`span.pos`. -/
def is_valid_entry (soup : Option Html) : Bool :=
  match soup with
  | none => false
  | some s => (s.find1 "h1" HEADWORD_CLASS).isSome && (s.find1 "span" POS_CLASS).isSome

/-- `Word._process_entry` (src/scrape/oald.py lines 220-232): the whole
dict construction sits in one `try`, and the catch-all `except` returns
the empty dict `{}`.  Within the construction the only unguarded accesses
are inside `_parse_idiom`, so the result is the empty dict exactly when
`get_idioms` raises; every other absent structure already degraded to an
empty field inside its own accessor. -/
def process_entry (soup : Html) (pvNet : String → Option Html) : EntryResult :=
  match get_idioms soup with
  | .error _ => .empty
  | .ok idioms =>
    .entry { headword := get_headword soup
             part_of_speech := get_part_of_speech soup
             pronunciations := get_pronunciations soup
             meanings := get_meanings soup
             idioms := idioms
             phrasal_verbs := get_phrasal_verbs soup pvNet }

/-! ## Fetching variation pages (src/scrape/oald.py lines 81-106) -/

/-- What the environment does for the `session.get` of one variation URL
in `Word._fetch_variation`: a completed response with an HTTP status and a
parsed body, or one of the two exception classes named in the `except`
clause, or any other exception (for instance while reading or parsing the
body). -/
inductive FetchOutcome where
  | response (status : Nat) (page : Html)
  | clientError
  | timeoutError
  | otherException

/-- `Word._fetch_variation`: a 200 response yields the parsed page, any
other status yields `None`, `aiohttp.ClientError` and
`asyncio.TimeoutError` are caught and yield `None`, and every other
exception propagates (`.error`). -/
def fetch_variation : FetchOutcome → Except Unit (Option Html)
  | .response status page => if status == 200 then .ok (some page) else .ok none
  | .clientError => .ok none
  | .timeoutError => .ok none
  | .otherException => .error ()

/-- The page value a fetch outcome contributes when it does not raise:
`some page` for a 200 response, `None` otherwise. -/
def variationPage : FetchOutcome → Option Html
  | .response status page => if status == 200 then some page else none
  | _ => none

/-- Failure modes of `Word.fetch_word`: the dedicated `WordNotFound`
exception, or an exception that escaped a variation task and was re-raised
by `asyncio.gather`. -/
inductive WordFailure where
  | wordNotFound (word : String)
  | uncaughtException
deriving DecidableEq

/-- `Word.MAX_ENTRIES` (src/scrape/oald.py line 18). -/
def MAX_ENTRIES : Nat := 5

/-- `Word.fetch_word` (src/scrape/oald.py lines 81-95): fetch the numbered
variation pages `word_1 .. word_MAX_ENTRIES` (the outcome of variation `i`
is `variation i`), keep the pages passing `_is_valid_entry`, process each
into an entry, and raise `WordNotFound` when no entry resulted.  An
exception escaping a fetch task is re-raised by `asyncio.gather`, modelled
by the error short-circuit of `mapM`. -/
def fetch_word (word : String) (variation : Nat → FetchOutcome)
    (pvNet : String → Option Html) : Except WordFailure (List EntryResult) :=
  match (mapME fetch_variation
      ((List.range MAX_ENTRIES).map (fun i => variation (i + 1)))).mapError
      (fun _ => WordFailure.uncaughtException) with
  | .error e => .error e
  | .ok results =>
    let valid := results.filter (fun s => is_valid_entry s)
    let entries := valid.filterMap (fun s => s.map (fun page => process_entry page pvNet))
    if entries.isEmpty then .error (.wordNotFound word) else .ok entries

/-- A fetch outcome other than an uncaught exception never raises and
contributes exactly its `variationPage`. -/
theorem fetch_variation_benign (o : FetchOutcome) (h : o ≠ .otherException) :
    fetch_variation o = .ok (variationPage o) := by
  cases o with
  | response status page =>
    by_cases hs : status == 200 <;> simp [fetch_variation, variationPage, hs]
  | clientError => rfl
  | timeoutError => rfl
  | otherException => exact absurd rfl h

/-- The entry list built from a list of fetched pages is empty exactly
when no page is valid (a valid page is necessarily a present page, and
`_process_entry` always returns a dict). -/
theorem entries_isEmpty_iff (pages : List (Option Html)) (pvNet : String → Option Html) :
    (((pages.filter (fun s => is_valid_entry s)).filterMap
        (fun s => s.map (fun page => process_entry page pvNet))).isEmpty = true) ↔
      ∀ p ∈ pages, is_valid_entry p = false := by
  induction pages with
  | nil => simp
  | cons p rest ih =>
    by_cases hv : is_valid_entry p
    · cases p with
      | none => simp [is_valid_entry] at hv
      | some page =>
        rw [List.filter_cons_of_pos (by simpa using hv)]
        simp [hv]
    · rw [List.filter_cons_of_neg (by simpa using hv)]
      simp only [List.mem_cons]
      constructor
      · intro h q hq
        rcases hq with hq | hq
        · subst hq; simpa using hv
        · exact (ih.mp h) q hq
      · intro h
        exact ih.mpr (fun q hq => h q (Or.inr hq))

/-- Erroring of the gathered variation fetches is exactly the presence of
an outcome whose exception is not one of the two caught classes. -/
theorem mapME_fetch_variation_error (xs : List FetchOutcome) :
    (∃ e, mapME fetch_variation xs = .error e) ↔ ∃ o ∈ xs, o = .otherException := by
  induction xs with
  | nil => simp [mapME]
  | cons o rest ih =>
    by_cases ho : o = FetchOutcome.otherException
    · subst ho
      simp [mapME, fetch_variation]
    · simp only [mapME, fetch_variation_benign o ho]
      rcases hrest : mapME fetch_variation rest with e | ys
      · constructor
        · intro _
          obtain ⟨q, hq, hq2⟩ := ih.mp ⟨e, hrest⟩
          exact ⟨q, List.mem_cons_of_mem _ hq, hq2⟩
        · intro _
          exact ⟨e, rfl⟩
      · constructor
        · intro ⟨e, he⟩
          cases he
        · intro ⟨q, hq, hq2⟩
          rcases List.mem_cons.mp hq with h | h
          · exact absurd (h ▸ hq2) ho
          · obtain ⟨e, he⟩ := ih.mpr ⟨q, h, hq2⟩
            rw [he] at hrest
            cases hrest

/-- When every outcome is benign, the gathered fetches succeed and
deliver exactly the `variationPage` of each outcome. -/
theorem mapME_fetch_variation_benign (xs : List FetchOutcome)
    (h : ∀ o ∈ xs, o ≠ .otherException) :
    mapME fetch_variation xs = .ok (xs.map variationPage) := by
  induction xs with
  | nil => rfl
  | cons o rest ih =>
    simp only [mapME, fetch_variation_benign o (h o (List.mem_cons_self o rest)),
      ih (fun q hq => h q (List.mem_cons_of_mem _ hq)), List.map]

/-- C5: under fetch outcomes that raise nothing uncaught, `fetch_word`
raises the dedicated `WordNotFound` exception (a constructor of its own,
distinguishable from a generic error) if and only if none of the
`MAX_ENTRIES = 5` fetched variation pages is valid; when at least one
variation is valid it returns normally with a non-empty entry list; and a
present page is valid exactly when it has both a headword element and a
part-of-speech element. -/
theorem C5_not_found_iff_no_valid_variation (word : String)
    (variation : Nat → FetchOutcome) (pvNet : String → Option Html)
    (hbenign : ∀ i, 1 ≤ i → i ≤ MAX_ENTRIES → variation i ≠ .otherException) :
    (fetch_word word variation pvNet = .error (.wordNotFound word) ↔
      ∀ i, 1 ≤ i → i ≤ MAX_ENTRIES →
        is_valid_entry (variationPage (variation i)) = false) ∧
    ((∃ i, 1 ≤ i ∧ i ≤ MAX_ENTRIES ∧
        is_valid_entry (variationPage (variation i)) = true) →
      ∃ es, fetch_word word variation pvNet = .ok es ∧ es ≠ []) ∧
    (∀ page : Html, is_valid_entry (some page)
      = ((page.find1 "h1" HEADWORD_CLASS).isSome
          && (page.find1 "span" POS_CLASS).isSome)) := by
  have hb : ∀ o ∈ (List.range MAX_ENTRIES).map (fun i => variation (i + 1)),
      o ≠ .otherException := by
    intro o ho
    obtain ⟨i, hi, rfl⟩ := List.mem_map.mp ho
    have hi5 := List.mem_range.mp hi
    exact hbenign (i + 1) (by omega) (by omega)
  have hmm := mapME_fetch_variation_benign _ hb
  set pages := (List.range MAX_ENTRIES).map (fun i => variationPage (variation (i + 1)))
    with hpages
  set entries := (pages.filter (fun s => is_valid_entry s)).filterMap
      (fun s => s.map (fun page => process_entry page pvNet)) with hentries
  have hwd : fetch_word word variation pvNet =
      if entries.isEmpty then .error (.wordNotFound word) else .ok entries := by
    unfold fetch_word
    rw [hmm]
    simp only [Except.mapError, List.map_map, Function.comp_def]
  have hidx : (∀ p ∈ pages, is_valid_entry p = false) ↔
      (∀ i, 1 ≤ i → i ≤ MAX_ENTRIES →
        is_valid_entry (variationPage (variation i)) = false) := by
    constructor
    · intro h i h1 h5
      have heq : i - 1 + 1 = i := by omega
      refine h (variationPage (variation i)) ?_
      rw [hpages]
      refine List.mem_map.mpr ⟨i - 1, List.mem_range.mpr (by omega), ?_⟩
      rw [heq]
    · intro h p hp
      rw [hpages] at hp
      obtain ⟨i, hi, rfl⟩ := List.mem_map.mp hp
      have hi5 := List.mem_range.mp hi
      exact h (i + 1) (by omega) (by omega)
  have hiff : (entries.isEmpty = true) ↔
      (∀ i, 1 ≤ i → i ≤ MAX_ENTRIES →
        is_valid_entry (variationPage (variation i)) = false) :=
    (entries_isEmpty_iff pages pvNet).trans hidx
  refine ⟨?_, ?_, fun page => rfl⟩
  · rw [hwd]
    by_cases he : entries.isEmpty = true
    · rw [if_pos he]
      exact iff_of_true rfl (hiff.mp he)
    · rw [if_neg he]
      exact iff_of_false (fun hh => Except.noConfusion hh)
        (fun hall => he (hiff.mpr hall))
  · intro ⟨i, h1, h5, hv⟩
    have hne : ¬ (entries.isEmpty = true) := by
      intro h
      have := hiff.mp h i h1 h5
      rw [hv] at this
      cases this
    rw [hwd, if_neg hne]
    refine ⟨entries, rfl, fun hnil => hne ?_⟩
    rw [hnil]
    rfl

/-- A variation outcome, a valid page everywhere, for the C5 witness. -/
def validPage : Html :=
  .elem 0 "body" [] [] []
    [ .elem 1 "h1" [HEADWORD_CLASS] [] ["run"] []
    , .elem 2 "span" [POS_CLASS] [] ["verb"] [] ]

/-- Variation oracle delivering the valid page for every index. -/
def c5variation : Nat → FetchOutcome := fun _ => .response 200 validPage

/-- Witness for C5 at a concrete input: every variation of the word run
fetches a valid page. -/
theorem C5_not_found_iff_no_valid_variation_witness :
    (fetch_word "run" c5variation (fun _ => none) = .error (.wordNotFound "run") ↔
      ∀ i, 1 ≤ i → i ≤ MAX_ENTRIES →
        is_valid_entry (variationPage (c5variation i)) = false) ∧
    ((∃ i, 1 ≤ i ∧ i ≤ MAX_ENTRIES ∧
        is_valid_entry (variationPage (c5variation i)) = true) →
      ∃ es, fetch_word "run" c5variation (fun _ => none) = .ok es ∧ es ≠ []) ∧
    (∀ page : Html, is_valid_entry (some page)
      = ((page.find1 "h1" HEADWORD_CLASS).isSome
          && (page.find1 "span" POS_CLASS).isSome)) :=
  C5_not_found_iff_no_valid_variation "run" c5variation (fun _ => none)
    (fun _ _ _ h => FetchOutcome.noConfusion h)

/-- Variation oracle for the C4 counterexample: variation 1 raises an
exception outside the two caught classes, all other variations fetch a
valid page. -/
def c4variation : Nat → FetchOutcome
  | 1 => .otherException
  | _ => .response 200 validPage

/-- C4 counterexample: one variation failing with an exception that is not
`aiohttp.ClientError` or `asyncio.TimeoutError` is not treated as the
variation being absent — it propagates out of `fetch_word` as a failure of
the whole word, even though the four other variations fetched valid
pages. -/
theorem C4_counterexample_exception_escapes :
    fetch_word "break" c4variation (fun _ => none) = .error .uncaughtException ∧
    is_valid_entry (variationPage (c4variation 2)) = true :=
  ⟨rfl, rfl⟩

/-- C4 amended: only the two exception classes named in the `except`
clause of `_fetch_variation` (plus any non-200 status) are treated as the
variation being absent; `fetch_word` propagates an uncaught exception
exactly when some variation fetch raises an exception outside those two
classes. -/
theorem C4_only_named_exceptions_contained (word : String)
    (variation : Nat → FetchOutcome) (pvNet : String → Option Html) :
    fetch_variation .clientError = .ok none ∧
    fetch_variation .timeoutError = .ok none ∧
    (fetch_word word variation pvNet = .error .uncaughtException ↔
      ∃ i, 1 ≤ i ∧ i ≤ MAX_ENTRIES ∧ variation i = .otherException) := by
  refine ⟨rfl, rfl, ?_⟩
  have hmm := mapME_fetch_variation_error
    ((List.range MAX_ENTRIES).map (fun i => variation (i + 1)))
  constructor
  · intro h
    unfold fetch_word at h
    rcases hm : mapME fetch_variation
        ((List.range MAX_ENTRIES).map (fun i => variation (i + 1))) with e | results
    · obtain ⟨q, hq, hq2⟩ := hmm.mp ⟨e, hm⟩
      obtain ⟨i, hi, rfl⟩ := List.mem_map.mp hq
      have hi5 := List.mem_range.mp hi
      exact ⟨i + 1, by omega, by omega, hq2⟩
    · rw [hm] at h
      simp only [Except.mapError] at h
      split at h <;> simp at h
  · intro ⟨i, h1, h5, hoth⟩
    have hmem : ∃ o ∈ (List.range MAX_ENTRIES).map (fun i => variation (i + 1)),
        o = FetchOutcome.otherException := by
      have heq : i - 1 + 1 = i := by omega
      refine ⟨variation i, List.mem_map.mpr ⟨i - 1, List.mem_range.mpr (by omega), ?_⟩, hoth⟩
      rw [heq]
    obtain ⟨e, he⟩ := hmm.mpr hmem
    unfold fetch_word
    rw [he]
    rfl

/-- Pointwise-equal post-processing of two mapped lists gives equal
filterMap results. -/
theorem filterMap_map_congr {α β γ : Type} (f g : α → β) (F : β → Option γ)
    (l : List α) (h : ∀ a ∈ l, F (f a) = F (g a)) :
    (l.map f).filterMap F = (l.map g).filterMap F := by
  induction l with
  | nil => rfl
  | cons a rest ih =>
    simp only [List.map_cons, List.filterMap_cons,
      h a (List.mem_cons_self a rest),
      ih (fun b hb => h b (List.mem_cons_of_mem _ hb))]

/-- C10: a phrasal-verb link whose page fetches successfully but parses to
an empty sense list is silently omitted by the `if data` filter of
`get_phrasal_verbs`, exactly as if its fetch had failed: every phrasal
verb in the result has a non-empty sense list, and turning a successful
empty-parse fetch into a failed fetch leaves the result unchanged. -/
theorem C10_empty_sense_pv_omitted (soup : Html) (pvNet : String → Option Html) :
    (∀ pv ∈ get_phrasal_verbs soup pvNet, pv.senses ≠ []) ∧
    (∀ url page, pvNet url = some page → parse_pv_page page = [] →
      get_phrasal_verbs soup pvNet
        = get_phrasal_verbs soup (fun u => if u = url then none else pvNet u)) := by
  constructor
  · intro pv hpv
    obtain ⟨vd, hvd, hsome⟩ := List.mem_filterMap.mp hpv
    rcases vd with ⟨verb, data⟩
    cases data with
    | none => exact Option.noConfusion (show (none : Option PhrasalVerb) = some pv from hsome)
    | some l =>
      cases l with
      | nil => exact Option.noConfusion (show (none : Option PhrasalVerb) = some pv from hsome)
      | cons s rest =>
        have hsome2 : some ({ phrasal_verb := verb, senses := s :: rest } : PhrasalVerb)
            = some pv := hsome
        cases hsome2
        simp
  · intro url page hnet hempty
    unfold get_phrasal_verbs
    apply filterMap_map_congr
    intro kv _
    by_cases hu : kv.2 = url
    · have h1 : fetch_pv_data pvNet kv.1 kv.2 = (kv.1, some []) := by
        simp only [fetch_pv_data, hu, hnet, hempty]
      have h2 : fetch_pv_data (fun u => if u = url then none else pvNet u) kv.1 kv.2
          = (kv.1, none) := by
        simp [fetch_pv_data, hu]
      rw [h1, h2]
    · have h3 : fetch_pv_data (fun u => if u = url then none else pvNet u) kv.1 kv.2
          = fetch_pv_data pvNet kv.1 kv.2 := by
        simp only [fetch_pv_data]
        rw [if_neg hu]
      rw [h3]

/-- A phrasal-verb page with no `li.sense` at all: it parses to an empty
sense list. -/
def pvPageEmpty : Html := .elem 50 "body" [] [] [] []

/-- A parent page with one discovered phrasal-verb link pointing at
`u1`. -/
def c10soup : Html :=
  .elem 10 "body" [] [] []
    [ .elem 11 "aside" [PHRASAL_VERBS_CLASS] [] []
        [ .elem 12 "li" ["li"] [] []
            [ .elem 13 "a" ["Ref"] [("href", "u1")] []
                [ .elem 14 "span" ["xh"] [] ["run into"] [] ] ] ] ]

/-- Oracle fetching the empty-sense page for `u1`. -/
def c10net : String → Option Html := fun u => if u = "u1" then some pvPageEmpty else none

/-- Witness for C10 at a concrete input: with one link whose page parses
to no senses, the result equals the result with that same fetch
failing. -/
theorem C10_empty_sense_pv_omitted_witness :
    get_phrasal_verbs c10soup c10net
      = get_phrasal_verbs c10soup (fun u => if u = "u1" then none else c10net u) :=
  (C10_empty_sense_pv_omitted c10soup c10net).2 "u1" pvPageEmpty (by rfl) (by rfl)

/-- A valid variation page (headword and part of speech present, one
meaning) whose idioms section contains an idiom with no following
`ol.sense_single` anywhere in the document, so `_parse_idiom` raises. -/
def c3page : Html :=
  .elem 30 "body" [] [] []
    [ .elem 31 "h1" [HEADWORD_CLASS] [] ["run"] []
    , .elem 32 "span" [POS_CLASS] [] ["verb"] []
    , .elem 33 "ol" [] [] []
        [ .elem 34 "li" [SENSE_CLASS] [] []
            [ .elem 35 "span" [DEF_CLASS] [] ["move fast"] [] ] ]
    , .elem 36 "div" [IDIOMS_CLASS] [] []
        [ .elem 37 "span" [IDM_CLASS] [] ["run wild"] [] ] ]

/-- C3 counterexample: on a valid page whose idiom lacks its definition
structure, the parse failure of that one field does not degrade only that
field — `_process_entry` returns the empty dict, so the whole entry is
emptied even though the headword, part of speech and meanings of the page
were all parseable. -/
theorem C3_counterexample_idiom_error_empties_entry :
    process_entry c3page (fun _ => none) = .empty ∧
    is_valid_entry (some c3page) = true ∧
    get_headword c3page = some "run" ∧
    get_part_of_speech c3page = some "verb" ∧
    get_meanings c3page = [{ definition := "move fast", examples := [], level := "" }] :=
  ⟨rfl, rfl, rfl, rfl, rfl⟩

/-- C3 amended: structures that are merely absent degrade field by field
(each accessor guards its own lookups), but an exception during idiom
parsing — an idiom with no following `ol.sense_single`, or one whose
section lacks a `span.def` — is caught by the catch-all of
`_process_entry`, which then returns the empty dict: the whole entry is
emptied (it stays in the entry list as `{}`), not just the idioms
field. -/
theorem C3_field_degradation_vs_entry_emptying (soup : Html)
    (pvNet : String → Option Html) :
    (∀ idioms, get_idioms soup = .ok idioms →
      process_entry soup pvNet = .entry
        { headword := get_headword soup
          part_of_speech := get_part_of_speech soup
          pronunciations := get_pronunciations soup
          meanings := get_meanings soup
          idioms := idioms
          phrasal_verbs := get_phrasal_verbs soup pvNet }) ∧
    (∀ e, get_idioms soup = .error e → process_entry soup pvNet = .empty) ∧
    (soup.find1 "div" PHONS_BR_CLASS = none →
      get_pronunciation soup PHONS_BR_CLASS = { ipa := "", audio := "" }) ∧
    (soup.findTag "ol" = none → get_meanings soup = []) ∧
    (soup.find1 "div" IDIOMS_CLASS = none → get_idioms soup = .ok []) := by
  refine ⟨?_, ?_, ?_, ?_, ?_⟩
  · intro idioms h
    unfold process_entry
    rw [h]
  · intro e h
    unfold process_entry
    rw [h]
  · intro h
    unfold get_pronunciation
    rw [h]
  · intro h
    unfold get_meanings
    rw [h]
  · intro h
    unfold get_idioms
    rw [h]

/-- A valid page whose idiom does have its `ol.sense_single` with a
definition, for the C3 witness. -/
def c3good : Html :=
  .elem 40 "body" [] [] []
    [ .elem 41 "h1" [HEADWORD_CLASS] [] ["run"] []
    , .elem 42 "span" [POS_CLASS] [] ["verb"] []
    , .elem 43 "div" [IDIOMS_CLASS] [] []
        [ .elem 44 "span" [IDM_CLASS] [] ["run wild"] [] ]
    , .elem 45 "ol" ["sense_single"] [] []
        [ .elem 46 "li" [SENSE_CLASS] [] []
            [ .elem 47 "span" [DEF_CLASS] [] ["behave uncontrollably"] [] ] ] ]

/-- Witness for C3 amended at a concrete input: a page whose idiom parses
successfully produces the full entry with every field in place. -/
theorem C3_field_degradation_witness :
    process_entry c3good (fun _ => none) = .entry
      { headword := get_headword c3good
        part_of_speech := get_part_of_speech c3good
        pronunciations := get_pronunciations c3good
        meanings := get_meanings c3good
        idioms := [{ idiom := "run wild", definition := "behave uncontrollably",
                     examples := [] }]
        phrasal_verbs := get_phrasal_verbs c3good (fun _ => none) } :=
  (C3_field_degradation_vs_entry_emptying c3good (fun _ => none)).1
    [{ idiom := "run wild", definition := "behave uncontrollably", examples := [] }]
    (by rfl)

/-! ## Caching (src/scrape/oald.py lines 47-79).  The cache file content
is modelled at the JSON-value level: `json.dumps` writes the serialization
of `self.entries` and `json.loads` returns the stored structure, so the
file is represented by the JSON value it holds.  The decoder below
interprets a stored value back as the structured entry list; every value
written by `_cache_processed_data` has exactly this shape. -/

/-- A JSON value as produced by serializing the entry dicts: null,
strings, arrays and objects cover everything the scraper emits. -/
inductive Json where
  | null
  | str (s : String)
  | arr (xs : List Json)
  | obj (fields : List (String × Json))

/-- Sequencing of partial computations over a list, `none` when any
element fails. -/
def mapMO {α β : Type} (f : α → Option β) : List α → Option (List β)
  | [] => some []
  | x :: xs =>
    match f x with
    | none => none
    | some y =>
      match mapMO f xs with
      | none => none
      | some ys => some (y :: ys)

/-- Serialization of a Python `None`-or-string value. -/
def optStrJson : Option String → Json
  | none => .null
  | some s => .str s

/-- Serialization of one sense dict, fields in source order. -/
def Sense.toJson (s : Sense) : Json :=
  .obj [("definition", .str s.definition),
        ("examples", .arr (s.examples.map .str)),
        ("level", .str s.level)]

/-- Serialization of one idiom dict, fields in source order. -/
def Idiom.toJson (i : Idiom) : Json :=
  .obj [("idiom", .str i.idiom),
        ("definition", .str i.definition),
        ("examples", .arr (i.examples.map .str))]

/-- Serialization of one phrasal-verb dict, fields in source order. -/
def PhrasalVerb.toJson (p : PhrasalVerb) : Json :=
  .obj [("phrasal_verb", .str p.phrasal_verb),
        ("senses", .arr (p.senses.map Sense.toJson))]

/-- Serialization of one pronunciation dict. -/
def Pronunciation.toJson (p : Pronunciation) : Json :=
  .obj [("ipa", .str p.ipa), ("audio", .str p.audio)]

/-- Serialization of one entry: the empty dict or the six-field dict built
by `_process_entry`, fields in source order. -/
def EntryResult.toJson : EntryResult → Json
  | .empty => .obj []
  | .entry e =>
    .obj [("headword", optStrJson e.headword),
          ("part_of_speech", optStrJson e.part_of_speech),
          ("pronunciations", .obj [("uk", e.pronunciations.uk.toJson),
                                   ("us", e.pronunciations.us.toJson)]),
          ("meanings", .arr (e.meanings.map Sense.toJson)),
          ("idioms", .arr (e.idioms.map Idiom.toJson)),
          ("phrasal_verbs", .arr (e.phrasal_verbs.map PhrasalVerb.toJson))]

/-- Serialization of the whole `self.entries` list, the value passed to
`json.dumps` in `_cache_processed_data`. -/
def entriesToJson (es : List EntryResult) : Json :=
  .arr (es.map EntryResult.toJson)

/-- Interpretation of one JSON string. -/
def jsonStr : Json → Option String
  | .str s => some s
  | _ => none

/-- Interpretation of a JSON array of strings. -/
def strListFromJson : List Json → Option (List String) :=
  mapMO jsonStr

/-- Interpretation of a stored sense dict. -/
def senseFromJson : Json → Option Sense
  | .obj [("definition", .str d), ("examples", .arr exs), ("level", .str l)] =>
    match strListFromJson exs with
    | none => none
    | some es => some { definition := d, examples := es, level := l }
  | _ => none

/-- Interpretation of a stored idiom dict. -/
def idiomFromJson : Json → Option Idiom
  | .obj [("idiom", .str i), ("definition", .str d), ("examples", .arr exs)] =>
    match strListFromJson exs with
    | none => none
    | some es => some { idiom := i, definition := d, examples := es }
  | _ => none

/-- Interpretation of a stored phrasal-verb dict. -/
def pvFromJson : Json → Option PhrasalVerb
  | .obj [("phrasal_verb", .str v), ("senses", .arr ss)] =>
    match mapMO senseFromJson ss with
    | none => none
    | some senses => some { phrasal_verb := v, senses := senses }
  | _ => none

/-- Interpretation of a stored pronunciation dict. -/
def pronFromJson : Json → Option Pronunciation
  | .obj [("ipa", .str i), ("audio", .str a)] => some { ipa := i, audio := a }
  | _ => none

/-- Interpretation of a stored `None`-or-string value. -/
def optStrFromJson : Json → Option (Option String)
  | .null => some none
  | .str s => some (some s)
  | _ => none

/-- Interpretation of one stored entry. -/
def entryFromJson : Json → Option EntryResult
  | .obj [] => some .empty
  | .obj [("headword", hw), ("part_of_speech", pos),
          ("pronunciations", .obj [("uk", uk), ("us", us)]),
          ("meanings", .arr ms), ("idioms", .arr ids),
          ("phrasal_verbs", .arr pvs)] =>
    match optStrFromJson hw, optStrFromJson pos, pronFromJson uk, pronFromJson us,
        mapMO senseFromJson ms, mapMO idiomFromJson ids, mapMO pvFromJson pvs with
    | some hw, some pos, some uk, some us, some ms, some ids, some pvs =>
      some (.entry { headword := hw, part_of_speech := pos
                     pronunciations := { uk := uk, us := us }
                     meanings := ms, idioms := ids, phrasal_verbs := pvs })
    | _, _, _, _, _, _, _ => none
  | _ => none

/-- Interpretation of a stored entry list. -/
def entriesFromJson : Json → Option (List EntryResult)
  | .arr xs => mapMO entryFromJson xs
  | _ => none

/-- Round trip of `mapMO` over a serialized list. -/
theorem mapMO_map_roundtrip {α β : Type} (f : α → β) (g : β → Option α)
    (h : ∀ x, g (f x) = some x) (l : List α) : mapMO g (l.map f) = some l := by
  induction l with
  | nil => rfl
  | cons x xs ih => simp only [List.map, mapMO, h x, ih]

/-- Round trip for string lists. -/
theorem strList_roundtrip (l : List String) :
    strListFromJson (l.map Json.str) = some l :=
  mapMO_map_roundtrip Json.str jsonStr (fun _ => rfl) l

/-- Round trip for senses. -/
theorem senseFromJson_toJson (s : Sense) : senseFromJson s.toJson = some s := by
  rcases s with ⟨d, es, l⟩
  simp only [Sense.toJson, senseFromJson, strList_roundtrip]

/-- Round trip for idioms. -/
theorem idiomFromJson_toJson (i : Idiom) : idiomFromJson i.toJson = some i := by
  rcases i with ⟨a, d, es⟩
  simp only [Idiom.toJson, idiomFromJson, strList_roundtrip]

/-- Round trip for phrasal verbs. -/
theorem pvFromJson_toJson (p : PhrasalVerb) : pvFromJson p.toJson = some p := by
  rcases p with ⟨v, ss⟩
  simp only [PhrasalVerb.toJson, pvFromJson,
    mapMO_map_roundtrip Sense.toJson senseFromJson senseFromJson_toJson ss]

/-- Round trip for pronunciations. -/
theorem pronFromJson_toJson (p : Pronunciation) : pronFromJson p.toJson = some p := by
  rcases p with ⟨i, a⟩
  rfl

/-- Round trip for the optional strings. -/
theorem optStrFromJson_toJson (o : Option String) :
    optStrFromJson (optStrJson o) = some o := by
  cases o <;> rfl

/-- Round trip for one entry. -/
theorem entryFromJson_toJson (e : EntryResult) : entryFromJson e.toJson = some e := by
  cases e with
  | empty => rfl
  | entry d =>
    rcases d with ⟨hw, pos, ⟨uk, us⟩, ms, ids, pvs⟩
    simp only [EntryResult.toJson, entryFromJson,
      optStrFromJson_toJson, pronFromJson_toJson,
      mapMO_map_roundtrip Sense.toJson senseFromJson senseFromJson_toJson ms,
      mapMO_map_roundtrip Idiom.toJson idiomFromJson idiomFromJson_toJson ids,
      mapMO_map_roundtrip PhrasalVerb.toJson pvFromJson pvFromJson_toJson pvs]

/-- C6 supporting fact: the JSON serialize-then-deserialize round trip on
an entry list is the identity. -/
theorem entriesFromJson_toJson (es : List EntryResult) :
    entriesFromJson (entriesToJson es) = some es := by
  simp only [entriesToJson, entriesFromJson,
    mapMO_map_roundtrip EntryResult.toJson entryFromJson entryFromJson_toJson es]

/-- The on-disk cache file for one word, as `initialize` observes it:
missing, present but failing to read or parse (the exception is caught and
treated as a miss), or present with a stored JSON value. -/
inductive CacheFile where
  | absent
  | unreadable
  | content (j : Json)

/-- `Word._try_load_cached_data` (src/scrape/oald.py lines 60-70): a
missing file or a raised read/parse exception is a miss (`False`);
otherwise `self.entries` becomes the loaded value. -/
def try_load_cached_data : CacheFile → Option (List EntryResult)
  | .absent => none
  | .unreadable => none
  | .content j => entriesFromJson j

/-- Result of one `Word.initialize` run: the final `self.entries` (or the
propagated failure), the number of variation-page network requests issued,
and the complete JSON values passed to `f.write` by
`_cache_processed_data`, in order.  On the fetch path the request count
also includes the nested phrasal-verb fetches of the processed pages. -/
structure InitResult where
  result : Except WordFailure (List EntryResult)
  networkRequests : Nat
  cacheWrites : List Json

/-- Nested phrasal-verb requests issued while processing the valid pages
of one fetch. -/
def pvRequestCount (pages : List (Option Html)) : Nat :=
  (pages.filter (fun s => is_valid_entry s)).foldl
    (fun n s => n + (match s with | some p => (pv_links p).length | none => 0)) 0

/-- `Word.initialize` (src/scrape/oald.py lines 47-53): on a cache hit
return the loaded entries with no network activity; on a miss run
`fetch_word` and only then `_cache_processed_data`, which builds the full
serialized value in memory (`json.dumps(self.entries)`) and hands it to a
single `f.write` call.  A raise from `fetch_word` (either failure mode)
propagates before the cache write is reached. -/
def initialize_word (word : String) (cache : CacheFile) (variation : Nat → FetchOutcome)
    (pvNet : String → Option Html) : InitResult :=
  match try_load_cached_data cache with
  | some entries => { result := .ok entries, networkRequests := 0, cacheWrites := [] }
  | none =>
    match fetch_word word variation pvNet with
    | .error e =>
      { result := .error e, networkRequests := MAX_ENTRIES, cacheWrites := [] }
    | .ok entries =>
      { result := .ok entries
        networkRequests := MAX_ENTRIES + pvRequestCount
          ((List.range MAX_ENTRIES).map (fun i => variationPage (variation (i + 1))))
        cacheWrites := [entriesToJson entries] }

/-- C6: a second resolution of a word whose first resolution succeeded and
wrote its cache file issues zero network requests and yields the same
entry list, whatever the network would now answer; the JSON
serialize-then-deserialize round trip on the entries is the identity. -/
theorem C6_warm_cache_idempotent (word : String)
    (variation variation2 : Nat → FetchOutcome)
    (pvNet pvNet2 : String → Option Html) (es : List EntryResult) (j : Json)
    (hfirst : (initialize_word word .absent variation pvNet).result = .ok es)
    (hwrote : (initialize_word word .absent variation pvNet).cacheWrites = [j]) :
    (initialize_word word (.content j) variation2 pvNet2).networkRequests = 0 ∧
    (initialize_word word (.content j) variation2 pvNet2).result = .ok es ∧
    entriesFromJson (entriesToJson es) = some es := by
  have hj : j = entriesToJson es := by
    rcases hfw : fetch_word word variation pvNet with e | entries
    · have hw0 : (initialize_word word .absent variation pvNet).cacheWrites = [] := by
        unfold initialize_word
        simp only [try_load_cached_data]
        rw [hfw]
      rw [hw0] at hwrote
      cases hwrote
    · have h1 : (initialize_word word .absent variation pvNet).result = .ok entries := by
        unfold initialize_word
        simp only [try_load_cached_data]
        rw [hfw]
      have h2 : (initialize_word word .absent variation pvNet).cacheWrites
          = [entriesToJson entries] := by
        unfold initialize_word
        simp only [try_load_cached_data]
        rw [hfw]
      rw [h1] at hfirst
      cases hfirst
      rw [h2] at hwrote
      cases hwrote
      rfl
  subst hj
  refine ⟨?_, ?_, entriesFromJson_toJson es⟩
  · unfold initialize_word
    simp only [try_load_cached_data, entriesFromJson_toJson es]
  · unfold initialize_word
    simp only [try_load_cached_data, entriesFromJson_toJson es]

/-- The entry produced from `validPage` (no pronunciations, meanings,
idioms or phrasal verbs on that page). -/
def c6entry : EntryData :=
  { headword := some "run", part_of_speech := some "verb"
    pronunciations := { uk := { ipa := "", audio := "" }, us := { ipa := "", audio := "" } }
    meanings := [], idioms := [], phrasal_verbs := [] }

/-- The entry list of a successful run over `c5variation`. -/
def c6entries : List EntryResult := List.replicate MAX_ENTRIES (.entry c6entry)

/-- Witness for C6 at a concrete input: a successful first resolution of
the word run, then a warm re-resolution. -/
theorem C6_warm_cache_idempotent_witness :
    (initialize_word "run" (.content (entriesToJson c6entries)) c5variation
      (fun _ => none)).networkRequests = 0 ∧
    (initialize_word "run" (.content (entriesToJson c6entries)) c5variation
      (fun _ => none)).result = .ok c6entries ∧
    entriesFromJson (entriesToJson c6entries) = some c6entries :=
  C6_warm_cache_idempotent "run" c5variation c5variation (fun _ => none) (fun _ => none)
    c6entries (entriesToJson c6entries) (by rfl) (by rfl)

/-- C8: a cache write happens only after the whole fetch and parse of the
word succeeded — every written value is the complete serialization of the
successfully produced entry list — and one run performs at most one write,
whose content is built in memory in full before the single write
operation. -/
theorem C8_cache_write_atomic_after_success (word : String) (cache : CacheFile)
    (variation : Nat → FetchOutcome) (pvNet : String → Option Html) :
    (∀ j ∈ (initialize_word word cache variation pvNet).cacheWrites,
        ∃ es, (initialize_word word cache variation pvNet).result = .ok es ∧
          fetch_word word variation pvNet = .ok es ∧ j = entriesToJson es) ∧
    (initialize_word word cache variation pvNet).cacheWrites.length ≤ 1 := by
  rcases hload : try_load_cached_data cache with _ | entries0
  · rcases hfw : fetch_word word variation pvNet with e | entries
    · have hini : (initialize_word word cache variation pvNet).cacheWrites = [] := by
        unfold initialize_word
        rw [hload, hfw]
      rw [hini]
      exact ⟨fun j hj => absurd hj (List.not_mem_nil j), by simp⟩
    · have hini : initialize_word word cache variation pvNet =
          { result := .ok entries
            networkRequests := MAX_ENTRIES + pvRequestCount
              ((List.range MAX_ENTRIES).map (fun i => variationPage (variation (i + 1))))
            cacheWrites := [entriesToJson entries] } := by
        unfold initialize_word
        rw [hload, hfw]
      rw [hini]
      refine ⟨?_, by simp⟩
      intro j hj
      rcases List.mem_singleton.mp hj with rfl
      exact ⟨entries, rfl, rfl, rfl⟩
  · have hini : (initialize_word word cache variation pvNet).cacheWrites = [] := by
      unfold initialize_word
      rw [hload]
    rw [hini]
    exact ⟨fun j hj => absurd hj (List.not_mem_nil j), by simp⟩

/-- Witness for C8 at a concrete input: the successful run over
`c5variation` performs its one complete write. -/
theorem C8_cache_write_atomic_after_success_witness :
    ∃ es, (initialize_word "run" .absent c5variation (fun _ => none)).result = .ok es ∧
      fetch_word "run" c5variation (fun _ => none) = .ok es ∧
      entriesToJson c6entries = entriesToJson es :=
  (C8_cache_write_atomic_after_success "run" .absent c5variation (fun _ => none)).1
    (entriesToJson c6entries)
    (by rw [show (initialize_word "run" .absent c5variation (fun _ => none)).cacheWrites
          = [entriesToJson c6entries] from rfl]
        exact List.mem_cons_self _ _)

/-! ## src/generate/anki.py — MediaDownloader.download_audio (lines
97-127), as an explicitly interleaved machine.  Every invocation is a
thread; a thread advances by one atomic block of code per step, the block
boundaries being the `await` points of the source (`semaphore` entry,
`rate_limiter.wait`, the HTTP get with its body read, the file write with
the context-manager exits, `asyncio.sleep`).  A scheduler — the asyncio
event loop — picks which thread steps next. -/

/-- What one `session.get(url)` attempt, with its `raise_for_status` and
body read, does. -/
inductive NetAttempt where
  | success
  | clientError
  | timeoutError
  | otherException
deriving DecidableEq

/-- Program counter of one `download_audio(url)` invocation, one value per
atomic block: the url/map checks; waiting on the semaphore; awaiting the
rate limiter for attempt `a`; the filename computation and disk check; the
network get; the file write; the map registration and return; the backoff
sleep; and the two terminal states (returned, or an uncaught exception
propagated). -/
inductive MDpc where
  | start
  | semWait
  | rateWait (attempt : Nat)
  | diskCheck (attempt : Nat)
  | getting (attempt : Nat)
  | writing (attempt : Nat)
  | registering
  | sleeping (attempt : Nat)
  | done (result : Option String)
  | raised
deriving DecidableEq

/-- One `download_audio` invocation: its url argument and where it
stands. -/
structure MDThread where
  url : String
  pc : MDpc
deriving DecidableEq

/-- Shared state of one `MediaDownloader` plus the event log: the
in-memory `url_to_filename` map, the on-disk cache (set of present
filenames), the semaphore holder count, the log of network GETs
(url, attempt), the log of backoff sleeps (seconds), and the threads. -/
structure MDState where
  url_to_filename : List (String × String)
  disk : List String
  semCount : Nat
  gets : List (String × Nat)
  sleeps : List Nat
  threads : List MDThread
deriving DecidableEq

/-- Lookup in a Python dict (`url in self.url_to_filename` and the
subscript read). -/
def lookupStr (m : List (String × String)) (k : String) : Option String :=
  (m.find? (fun kv => kv.1 == k)).map (fun kv => kv.2)

/-- The content-addressed filename
`hashlib.md5(url.encode()).hexdigest() + ".mp3"`; `h` stands for the hex
digest function. -/
def fname (h : String → String) (url : String) : String := h url ++ ".mp3"

/-- One atomic block of `download_audio` for one thread, mirroring
src/generate/anki.py lines 97-127: the empty-url and map checks return
without touching the semaphore; the semaphore admits below `maxConc`; each
loop attempt awaits the rate limiter, computes the filename, checks the
disk (a hit registers the map and returns, all in one block — no `await`
separates them), otherwise performs the GET; a caught failure on attempt 2
returns `None`, earlier ones sleep `1 * (attempt + 1)` seconds and retry;
an exception outside the two caught classes propagates; a successful GET
writes the file, then (after the context-manager exits) registers the map
and returns the filename. -/
def stepThread (h : String → String) (net : String → Nat → NetAttempt) (maxConc : Nat)
    (st : MDState) (t : MDThread) : MDState × MDThread :=
  match t.pc with
  | .start =>
    if t.url == "" then (st, { t with pc := .done none })
    else
      match lookupStr st.url_to_filename t.url with
      | some f => (st, { t with pc := .done (some f) })
      | none => (st, { t with pc := .semWait })
  | .semWait =>
    if st.semCount < maxConc then
      ({ st with semCount := st.semCount + 1 }, { t with pc := .rateWait 0 })
    else (st, t)
  | .rateWait a => (st, { t with pc := .diskCheck a })
  | .diskCheck a =>
    if st.disk.contains (fname h t.url) then
      ({ st with url_to_filename := dictSet st.url_to_filename t.url (fname h t.url)
                 semCount := st.semCount - 1 },
       { t with pc := .done (some (fname h t.url)) })
    else (st, { t with pc := .getting a })
  | .getting a =>
    let st2 := { st with gets := st.gets ++ [(t.url, a)] }
    match net t.url a with
    | .success => (st2, { t with pc := .writing a })
    | .clientError =>
      if a == 2 then
        ({ st2 with semCount := st2.semCount - 1 }, { t with pc := .done none })
      else
        ({ st2 with sleeps := st2.sleeps ++ [1 * (a + 1)] }, { t with pc := .sleeping a })
    | .timeoutError =>
      if a == 2 then
        ({ st2 with semCount := st2.semCount - 1 }, { t with pc := .done none })
      else
        ({ st2 with sleeps := st2.sleeps ++ [1 * (a + 1)] }, { t with pc := .sleeping a })
    | .otherException =>
      ({ st2 with semCount := st2.semCount - 1 }, { t with pc := .raised })
  | .sleeping a => (st, { t with pc := .rateWait (a + 1) })
  | .writing _ =>
    ({ st with disk := st.disk ++ [fname h t.url] }, { t with pc := .registering })
  | .registering =>
    ({ st with url_to_filename := dictSet st.url_to_filename t.url (fname h t.url)
               semCount := st.semCount - 1 },
     { t with pc := .done (some (fname h t.url)) })
  | .done _ => (st, t)
  | .raised => (st, t)

/-- The event loop runs one step of thread `i` (no thread: no change). -/
def mdStep (h : String → String) (net : String → Nat → NetAttempt) (maxConc : Nat)
    (st : MDState) (i : Nat) : MDState :=
  match st.threads.get? i with
  | none => st
  | some t =>
    let p := stepThread h net maxConc st t
    { p.1 with threads := st.threads.set i p.2 }

/-- A whole scheduled execution. -/
def mdRun (h : String → String) (net : String → Nat → NetAttempt) (maxConc : Nat)
    (st : MDState) : List Nat → MDState
  | [] => st
  | i :: rest => mdRun h net maxConc (mdStep h net maxConc st i) rest

/-- A fresh `MediaDownloader` with one `download_audio` invocation per
url: empty map, empty disk cache, free semaphore, no events yet. -/
def mdInit (urls : List String) : MDState :=
  { url_to_filename := [], disk := [], semCount := 0, gets := [], sleeps := [],
    threads := urls.map (fun u => { url := u, pc := .start }) }

/-- C7: an invocation for a url whose every download attempt fails with
one of the two caught exception classes performs exactly 3 attempts,
sleeps 1 second after the first failure and 2 seconds after the second,
and terminates returning `None` — not in the raised state. -/
theorem C7_retry_exhaustion (url : String) (h : String → String)
    (net : String → Nat → NetAttempt) (hurl : url ≠ "")
    (hfail : ∀ a, a ≤ 2 → net url a = .clientError ∨ net url a = .timeoutError) :
    (mdRun h net 10 (mdInit [url]) [0, 0, 0, 0, 0, 0, 0, 0, 0, 0, 0, 0, 0]).threads
      = [{ url := url, pc := .done none }] ∧
    (mdRun h net 10 (mdInit [url]) [0, 0, 0, 0, 0, 0, 0, 0, 0, 0, 0, 0, 0]).gets
      = [(url, 0), (url, 1), (url, 2)] ∧
    (mdRun h net 10 (mdInit [url]) [0, 0, 0, 0, 0, 0, 0, 0, 0, 0, 0, 0, 0]).sleeps
      = [1, 2] := by
  have hb : (url == "") = false := beq_eq_false_iff_ne.mpr hurl
  have e1 : mdStep h net 10 (mdInit [url]) 0
      = ⟨[], [], 0, [], [], [⟨url, .semWait⟩]⟩ := by
    simp [mdStep, mdInit, stepThread, lookupStr, hb, List.get?, List.set]
  have e2 : mdStep h net 10 ⟨[], [], 0, [], [], [⟨url, .semWait⟩]⟩ 0
      = ⟨[], [], 1, [], [], [⟨url, .rateWait 0⟩]⟩ := by
    simp [mdStep, stepThread, List.get?, List.set]
  have e3 : mdStep h net 10 ⟨[], [], 1, [], [], [⟨url, .rateWait 0⟩]⟩ 0
      = ⟨[], [], 1, [], [], [⟨url, .diskCheck 0⟩]⟩ := by
    simp [mdStep, stepThread, List.get?, List.set]
  have e4 : mdStep h net 10 ⟨[], [], 1, [], [], [⟨url, .diskCheck 0⟩]⟩ 0
      = ⟨[], [], 1, [], [], [⟨url, .getting 0⟩]⟩ := by
    simp [mdStep, stepThread, List.get?, List.set]
  have e5 : mdStep h net 10 ⟨[], [], 1, [], [], [⟨url, .getting 0⟩]⟩ 0
      = ⟨[], [], 1, [(url, 0)], [1], [⟨url, .sleeping 0⟩]⟩ := by
    rcases hfail 0 (by omega) with h0 | h0 <;>
      simp [mdStep, stepThread, h0, List.get?, List.set]
  have e6 : mdStep h net 10 ⟨[], [], 1, [(url, 0)], [1], [⟨url, .sleeping 0⟩]⟩ 0
      = ⟨[], [], 1, [(url, 0)], [1], [⟨url, .rateWait 1⟩]⟩ := by
    simp [mdStep, stepThread, List.get?, List.set]
  have e7 : mdStep h net 10 ⟨[], [], 1, [(url, 0)], [1], [⟨url, .rateWait 1⟩]⟩ 0
      = ⟨[], [], 1, [(url, 0)], [1], [⟨url, .diskCheck 1⟩]⟩ := by
    simp [mdStep, stepThread, List.get?, List.set]
  have e8 : mdStep h net 10 ⟨[], [], 1, [(url, 0)], [1], [⟨url, .diskCheck 1⟩]⟩ 0
      = ⟨[], [], 1, [(url, 0)], [1], [⟨url, .getting 1⟩]⟩ := by
    simp [mdStep, stepThread, List.get?, List.set]
  have e9 : mdStep h net 10 ⟨[], [], 1, [(url, 0)], [1], [⟨url, .getting 1⟩]⟩ 0
      = ⟨[], [], 1, [(url, 0), (url, 1)], [1, 2], [⟨url, .sleeping 1⟩]⟩ := by
    rcases hfail 1 (by omega) with h1 | h1 <;>
      simp [mdStep, stepThread, h1, List.get?, List.set]
  have e10 : mdStep h net 10
      ⟨[], [], 1, [(url, 0), (url, 1)], [1, 2], [⟨url, .sleeping 1⟩]⟩ 0
      = ⟨[], [], 1, [(url, 0), (url, 1)], [1, 2], [⟨url, .rateWait 2⟩]⟩ := by
    simp [mdStep, stepThread, List.get?, List.set]
  have e11 : mdStep h net 10
      ⟨[], [], 1, [(url, 0), (url, 1)], [1, 2], [⟨url, .rateWait 2⟩]⟩ 0
      = ⟨[], [], 1, [(url, 0), (url, 1)], [1, 2], [⟨url, .diskCheck 2⟩]⟩ := by
    simp [mdStep, stepThread, List.get?, List.set]
  have e12 : mdStep h net 10
      ⟨[], [], 1, [(url, 0), (url, 1)], [1, 2], [⟨url, .diskCheck 2⟩]⟩ 0
      = ⟨[], [], 1, [(url, 0), (url, 1)], [1, 2], [⟨url, .getting 2⟩]⟩ := by
    simp [mdStep, stepThread, List.get?, List.set]
  have e13 : mdStep h net 10
      ⟨[], [], 1, [(url, 0), (url, 1)], [1, 2], [⟨url, .getting 2⟩]⟩ 0
      = ⟨[], [], 0, [(url, 0), (url, 1), (url, 2)], [1, 2], [⟨url, .done none⟩]⟩ := by
    rcases hfail 2 (by omega) with h2 | h2 <;>
      simp [mdStep, stepThread, h2, List.get?, List.set]
  have hrun : mdRun h net 10 (mdInit [url]) [0, 0, 0, 0, 0, 0, 0, 0, 0, 0, 0, 0, 0]
      = ⟨[], [], 0, [(url, 0), (url, 1), (url, 2)], [1, 2], [⟨url, .done none⟩]⟩ := by
    simp only [mdRun]
    rw [e1, e2, e3, e4, e5, e6, e7, e8, e9, e10, e11, e12, e13]
  rw [hrun]
  exact ⟨rfl, rfl, rfl⟩

/-- Witness for C7 at a concrete input: the url `u`, every attempt failing
with `aiohttp.ClientError`. -/
theorem C7_retry_exhaustion_witness :
    (mdRun (fun s => s) (fun _ _ => .clientError) 10 (mdInit ["u"])
        [0, 0, 0, 0, 0, 0, 0, 0, 0, 0, 0, 0, 0]).threads
      = [{ url := "u", pc := .done none }] ∧
    (mdRun (fun s => s) (fun _ _ => .clientError) 10 (mdInit ["u"])
        [0, 0, 0, 0, 0, 0, 0, 0, 0, 0, 0, 0, 0]).gets
      = [("u", 0), ("u", 1), ("u", 2)] ∧
    (mdRun (fun s => s) (fun _ _ => .clientError) 10 (mdInit ["u"])
        [0, 0, 0, 0, 0, 0, 0, 0, 0, 0, 0, 0, 0]).sleeps
      = [1, 2] :=
  C7_retry_exhaustion "u" (fun s => s) (fun _ _ => .clientError) (by decide)
    (fun _ _ => Or.inl rfl)

/-- The interleaving of two concurrent invocations for the same url in
which both pass the disk check before either write completes. -/
def c2schedule : List Nat := [0, 0, 0, 1, 1, 1, 0, 1, 0, 1, 0, 1, 0, 1]

/-- C2 counterexample: two concurrent `download_audio` invocations for the
same url both find the in-memory map and the disk empty and both perform
the network download — two GETs for one url in one run, refuting "exactly
one network download"; both invocations do return the same filename. -/
theorem C2_counterexample_concurrent_double_download :
    (mdRun (fun s => s) (fun _ _ => .success) 10 (mdInit ["u", "u"]) c2schedule).gets
      = [("u", 0), ("u", 0)] ∧
    (mdRun (fun s => s) (fun _ _ => .success) 10 (mdInit ["u", "u"]) c2schedule).threads
      = [{ url := "u", pc := .done (some "u.mp3") },
         { url := "u", pc := .done (some "u.mp3") }] :=
  ⟨rfl, rfl⟩

/-- Every map entry records the content-addressed filename of its url. -/
def mapWF (h : String → String) (st : MDState) : Prop :=
  ∀ kv ∈ st.url_to_filename, kv.2 = fname h kv.1

/-- Every finished thread returned the content-addressed filename of its
url (or `None`). -/
def threadsWF (h : String → String) (st : MDState) : Prop :=
  ∀ t ∈ st.threads, ∀ f, t.pc = .done (some f) → f = fname h t.url

/-- A `dictSet` result contains only old entries and the new pair. -/
theorem dictSet_mem (d : List (String × String)) (k v : String)
    (kv : String × String) (hkv : kv ∈ dictSet d k v) : kv ∈ d ∨ kv = (k, v) := by
  unfold dictSet at hkv
  split at hkv
  · obtain ⟨kv0, hkv0, heq⟩ := List.mem_map.mp hkv
    by_cases hk : (kv0.1 == k) = true
    · right
      rw [← heq, if_pos hk]
    · left
      rw [← heq, if_neg hk]
      exact hkv0
  · rcases List.mem_append.mp hkv with hm | hm
    · exact Or.inl hm
    · exact Or.inr (List.mem_singleton.mp hm)

/-- A successful map lookup returns a stored pair for the key. -/
theorem lookupStr_mem (m : List (String × String)) (k f : String)
    (hl : lookupStr m k = some f) : (k, f) ∈ m := by
  unfold lookupStr at hl
  rcases hfind : m.find? (fun kv => kv.1 == k) with _ | kv
  · rw [hfind] at hl
    cases hl
  · rw [hfind] at hl
    have hmem := List.mem_of_find?_eq_some hfind
    have hpred := List.find?_some hfind
    simp only [beq_iff_eq] at hpred
    simp only [Option.map] at hl
    cases hl
    rcases kv with ⟨k0, f0⟩
    cases hpred
    exact hmem

/-- One scheduler step preserves both invariants. -/
theorem mdStep_preserves_wf (h : String → String) (net : String → Nat → NetAttempt)
    (maxConc : Nat) (st : MDState) (i : Nat)
    (hwf : mapWF h st ∧ threadsWF h st) :
    mapWF h (mdStep h net maxConc st i) ∧ threadsWF h (mdStep h net maxConc st i) := by
  obtain ⟨hmap, hthreads⟩ := hwf
  unfold mdStep
  rcases hget : st.threads.get? i with _ | t
  · exact ⟨hmap, hthreads⟩
  · have htmem : t ∈ st.threads := List.get?_mem hget
    have hset : ∀ t2 : MDThread, (∀ f, t2.pc = .done (some f) → f = fname h t2.url) →
        ∀ st2 : MDState, mapWF h st2 →
        mapWF h { st2 with threads := st.threads.set i t2 } ∧
        threadsWF h { st2 with threads := st.threads.set i t2 } := by
      intro t2 ht2 st2 hmap2
      refine ⟨hmap2, ?_⟩
      intro t3 ht3 f hf
      rcases List.mem_or_eq_of_mem_set ht3 with hmem | rfl
      · exact hthreads t3 hmem f hf
      · exact ht2 f hf
    have hmapset : ∀ st2 : MDState, mapWF h st2 →
        mapWF h { st2 with url_to_filename := dictSet st2.url_to_filename t.url (fname h t.url) } := by
      intro st2 hmap2 kv hkv
      rcases dictSet_mem _ _ _ _ hkv with hm | rfl
      · exact hmap2 kv hm
      · rfl
    rcases hpc : t.pc with _ | _ | a | a | a | a | _ | a | r | _
    all_goals simp only [stepThread, hpc]
    · -- start
      by_cases hu : (t.url == "") = true
      · rw [if_pos hu]
        exact hset _ (fun f hf => by cases hf) st hmap
      · rw [if_neg hu]
        rcases hl : lookupStr st.url_to_filename t.url with _ | f0
        · exact hset _ (fun f hf => by cases hf) st hmap
        · refine hset _ ?_ st hmap
          intro f hf
          cases hf
          exact hmap _ (lookupStr_mem _ _ _ hl)
    · -- semWait
      by_cases hc : st.semCount < maxConc
      · rw [if_pos hc]
        exact hset _ (fun f hf => by cases hf) _ hmap
      · rw [if_neg hc]
        refine hset _ ?_ st hmap
        intro f hf
        rw [hpc] at hf
        cases hf
    · -- rateWait
      exact hset _ (fun f hf => by cases hf) st hmap
    · -- diskCheck
      by_cases hd : st.disk.contains (fname h t.url) = true
      · rw [if_pos hd]
        refine hset _ ?_ _ (hmapset st hmap)
        intro f hf
        cases hf
        rfl
      · rw [if_neg hd]
        exact hset _ (fun f hf => by cases hf) st hmap
    · -- getting
      rcases hn : net t.url a with _ | _ | _ | _
      · exact hset _ (fun f hf => by cases hf) _ hmap
      · by_cases ha : (a == 2) = true
        · rw [if_pos ha]
          exact hset _ (fun f hf => by cases hf) _ hmap
        · rw [if_neg ha]
          exact hset _ (fun f hf => by cases hf) _ hmap
      · by_cases ha : (a == 2) = true
        · rw [if_pos ha]
          exact hset _ (fun f hf => by cases hf) _ hmap
        · rw [if_neg ha]
          exact hset _ (fun f hf => by cases hf) _ hmap
      · exact hset _ (fun f hf => by cases hf) _ hmap
    · -- writing
      exact hset _ (fun f hf => by cases hf) _ hmap
    · -- registering
      refine hset _ ?_ _ (hmapset st hmap)
      intro f hf
      cases hf
      rfl
    · -- sleeping
      exact hset _ (fun f hf => by cases hf) st hmap
    · -- done
      refine hset _ ?_ st hmap
      intro f hf
      exact hthreads t htmem f hf
    · -- raised
      refine hset _ ?_ st hmap
      intro f hf
      rw [hpc] at hf
      cases hf

/-- A whole run preserves both invariants. -/
theorem mdRun_preserves_wf (h : String → String) (net : String → Nat → NetAttempt)
    (maxConc : Nat) (schedule : List Nat) (st : MDState)
    (hwf : mapWF h st ∧ threadsWF h st) :
    mapWF h (mdRun h net maxConc st schedule) ∧
    threadsWF h (mdRun h net maxConc st schedule) := by
  induction schedule generalizing st with
  | nil => exact hwf
  | cons i rest ih =>
    exact ih _ (mdStep_preserves_wf h net maxConc st i hwf)

/-- C2 amended: all invocations that return a filename for a url return
the same one, the MD5-derived `fname`; and an invocation that starts after
some invocation for the same url has completed is answered from the
in-memory map in its first step, with no network GET and no change to any
shared state other than its own completion.  (Concurrent invocations that
overlap before either completes may, however, each perform a download, as
the counterexample run shows.) -/
theorem C2_amended_same_filename_and_late_dedup (h : String → String)
    (net : String → Nat → NetAttempt) (maxConc : Nat) (urls : List String)
    (schedule : List Nat) :
    (∀ t ∈ (mdRun h net maxConc (mdInit urls) schedule).threads, ∀ f,
        t.pc = .done (some f) → f = fname h t.url) ∧
    (∀ st : MDState, ∀ i : Nat, ∀ t : MDThread, ∀ f : String,
        st.threads.get? i = some t → t.pc = .start → t.url ≠ "" →
        lookupStr st.url_to_filename t.url = some f →
        mdStep h net maxConc st i
          = { st with threads := st.threads.set i { url := t.url, pc := .done (some f) } }) := by
  constructor
  · refine (mdRun_preserves_wf h net maxConc schedule (mdInit urls) ⟨?_, ?_⟩).2
    · intro kv hkv
      simp [mdInit] at hkv
    · intro t ht f hf
      simp only [mdInit] at ht
      obtain ⟨u, _, rfl⟩ := List.mem_map.mp ht
      cases hf
  · intro st i t f hget hpc hurl hlook
    have hb : (t.url == "") = false := beq_eq_false_iff_ne.mpr hurl
    unfold mdStep
    rw [hget]
    simp only [stepThread, hpc, hb, hlook, Bool.false_eq_true, if_false]

/-- A downloader state in which one earlier invocation for the url `u` has
completed and registered the map, and a fresh invocation is starting. -/
def c2wstate : MDState :=
  { url_to_filename := [("u", "u.mp3")], disk := ["u.mp3"], semCount := 0, gets := [],
    sleeps := [], threads := [{ url := "u", pc := .start }] }

/-- Witness for C2 amended at a concrete input: the late invocation is
served from the map in one step, with no GET. -/
theorem C2_amended_same_filename_and_late_dedup_witness :
    mdStep (fun s => s) (fun _ _ => .success) 10 c2wstate 0
      = { c2wstate with threads := [{ url := "u", pc := .done (some "u.mp3") }] } :=
  (C2_amended_same_filename_and_late_dedup (fun s => s) (fun _ _ => .success) 10 ["u"] []).2
    c2wstate 0 { url := "u", pc := .start } "u.mp3" rfl rfl (by decide) rfl

end Book2Anki
